import Mathlib

/-!
Verification of the react-learning-journey repository against its
specification.

The repository is a collection of Markdown documentation pages and small
React example components.  Its one structural design is the Topic
Registry: the README table of contents pairing each topic with a
documentation file and example files, in a fixed learning order.  The
spec (sections 3-8) defines the registry data model and its operations
(`listTopics`, `getTopic`, `getAdjacent`, `validate`); the repository
itself contains no such code, so those operations are modelled here
from the spec and checked against the spec's stated properties, while
the concrete registry data (the README table of contents) and the set
of resources actually present in the repository are transcribed from
the source files.  The React example components that the claims touch
(`UseStateExample.addItem`, `StateLiftingExample`) are embedded from
their JSX source.
-/

/-- Modelled from the spec (section 3, Data Model): one topic entry of the
registry.  `prevId`/`nextId` are derived, not stored, so they are not
fields here. -/
structure TopicEntry where
  id : String
  title : String
  docRef : String
  exampleRefs : List String
  order : Nat
deriving DecidableEq, Repr

/-- Modelled from the spec (section 7, Error Handling Design): the three
validation-time violation kinds.  `DuplicateId` references both offending
entries; `BrokenReference` carries the entry id and the offending
reference; `OrderGap` carries a missing order value. -/
inductive Violation where
  | DuplicateId (fst snd : TopicEntry)
  | OrderGap (missing : Nat)
  | BrokenReference (entryId ref : String)
deriving DecidableEq, Repr

/-- True exactly on `DuplicateId` violations. -/
def Violation.isDuplicateId : Violation → Bool
  | .DuplicateId _ _ => true
  | _ => false

/-- True exactly on `BrokenReference` violations. -/
def Violation.isBrokenReference : Violation → Bool
  | .BrokenReference _ _ => true
  | _ => false

/-- Modelled from the spec (section 4.1, check (a)): every pair of distinct
entries sharing an `id` yields one `DuplicateId` violation referencing
both entries. -/
def dupViolations : List TopicEntry → List Violation
  | [] => []
  | a :: rest =>
    ((rest.filter fun b => a.id == b.id).map fun b => Violation.DuplicateId a b)
      ++ dupViolations rest

/-- Modelled from the spec (section 4.1, check (b)): the `order` values must
be exactly the set of values 1..N where N is the number of entries; each
value of 1..N absent from the entries yields one `OrderGap` violation. -/
def orderViolations (R : List TopicEntry) : List Violation :=
  (List.range R.length).filterMap fun k =>
    if (k + 1) ∈ R.map (fun e => e.order) then none
    else some (Violation.OrderGap (k + 1))

/-- Modelled from the spec (section 4.1, check (c)): the broken-reference
violations contributed by a single entry, given the set of known resource
paths supplied by the caller. -/
def entryRefViolations (known : List String) (e : TopicEntry) : List Violation :=
  (if e.docRef ∈ known then [] else [Violation.BrokenReference e.id e.docRef])
    ++ e.exampleRefs.filterMap fun r =>
        if r ∈ known then none else some (Violation.BrokenReference e.id r)

/-- Modelled from the spec (section 4.1, check (c)): every unresolvable
`docRef` or `exampleRefs` element of any entry yields one
`BrokenReference` violation. -/
def brokenRefViolations (R : List TopicEntry) (known : List String) : List Violation :=
  R.flatMap (entryRefViolations known)

/-- Modelled from the spec (section 4.1): `validate()` runs the three
invariant checks in one pass and accumulates every violation found,
returning them as data; the empty sequence means the registry is valid. -/
def validate (R : List TopicEntry) (known : List String) : List Violation :=
  dupViolations R ++ orderViolations R ++ brokenRefViolations R known

/-- Invariant from the spec (section 3): no two entries share an `id`. -/
def NodupIds (R : List TopicEntry) : Prop :=
  (R.map fun e => e.id).Nodup

/-- Invariant from the spec (sections 3 and 4.1): the `order` values are
exactly the set 1..N, N the number of entries (as a multiset: a
permutation of the list 1, 2, ..., N). -/
def OrdersComplete (R : List TopicEntry) : Prop :=
  (R.map fun e => e.order).Perm (List.range' 1 R.length)

/-- Invariant from the spec (section 3): every `docRef` and every element of
`exampleRefs` resolves against the known resource paths. -/
def RefsResolve (R : List TopicEntry) (known : List String) : Prop :=
  ∀ e ∈ R, e.docRef ∈ known ∧ ∀ r ∈ e.exampleRefs, r ∈ known

/-- A registry satisfying all invariants of the spec's data model. -/
def Valid (R : List TopicEntry) (known : List String) : Prop :=
  NodupIds R ∧ OrdersComplete R ∧ RefsResolve R known

theorem dupViolations_eq_nil {R : List TopicEntry} :
    dupViolations R = [] ↔ NodupIds R := by
  unfold NodupIds
  induction R with
  | nil => simp [dupViolations]
  | cons a rest ih =>
    simp only [dupViolations, List.append_eq_nil, List.map_eq_nil_iff,
      List.filter_eq_nil_iff, ih, List.map_cons, List.nodup_cons,
      List.mem_map, beq_iff_eq]
    constructor
    · rintro ⟨h1, h2⟩
      refine ⟨?_, h2⟩
      rintro ⟨x, hx, heq⟩
      exact h1 x hx heq.symm
    · rintro ⟨h1, h2⟩
      refine ⟨?_, h2⟩
      intro x hx heq
      exact h1 ⟨x, hx, heq.symm⟩

theorem orderViolations_eq_nil {R : List TopicEntry} :
    orderViolations R = [] ↔ OrdersComplete R := by
  unfold orderViolations OrdersComplete
  rw [List.filterMap_eq_nil_iff]
  constructor
  · intro h
    have hmem : ∀ m ∈ List.range' 1 R.length, m ∈ R.map (fun e => e.order) := by
      intro m hm
      rw [List.mem_range'_1] at hm
      have hk := h (m - 1) (List.mem_range.mpr (by omega))
      have hm1 : m - 1 + 1 = m := by omega
      rw [hm1] at hk
      by_contra hnot
      simp [hnot] at hk
    have hsp := List.subperm_of_subset (List.nodup_range' 1 R.length) hmem
    have hlen : (R.map fun e => e.order).length ≤ (List.range' 1 R.length).length := by
      simp
    exact (hsp.perm_of_length_le hlen).symm
  · intro hp k hk
    have hmem : (k + 1) ∈ R.map (fun e => e.order) := by
      refine hp.mem_iff.mpr ?_
      rw [List.mem_range'_1]
      exact ⟨by omega, by have := List.mem_range.mp hk; omega⟩
    simp [hmem]

theorem entryRefViolations_eq_nil {known : List String} {e : TopicEntry} :
    entryRefViolations known e = []
      ↔ (e.docRef ∈ known ∧ ∀ r ∈ e.exampleRefs, r ∈ known) := by
  unfold entryRefViolations
  rw [List.append_eq_nil, List.filterMap_eq_nil_iff]
  constructor
  · rintro ⟨h1, h2⟩
    constructor
    · by_contra h
      simp [h] at h1
    · intro r hr
      by_contra h
      have := h2 r hr
      simp [h] at this
  · rintro ⟨h1, h2⟩
    refine ⟨by simp [h1], fun r hr => by simp [h2 r hr]⟩

theorem brokenRefViolations_eq_nil {R : List TopicEntry} {known : List String} :
    brokenRefViolations R known = [] ↔ RefsResolve R known := by
  unfold brokenRefViolations RefsResolve
  rw [List.flatMap_eq_nil_iff]
  constructor
  · intro h e he
    exact entryRefViolations_eq_nil.mp (h e he)
  · intro h e he
    exact entryRefViolations_eq_nil.mpr (h e he)

/-- C1: for every registry, `validate()` returns the empty violation
sequence if and only if the registry satisfies all invariants of the data
model: no two entries share an id, the order values are exactly the set
1..N (N the number of entries), and every docRef and every element of
exampleRefs resolves against the set of known resource paths supplied by
the caller. -/
theorem validate_eq_nil_iff_valid (R : List TopicEntry) (known : List String) :
    validate R known = [] ↔ Valid R known := by
  unfold validate Valid
  rw [List.append_eq_nil, List.append_eq_nil, dupViolations_eq_nil,
    orderViolations_eq_nil, brokenRefViolations_eq_nil, and_assoc]

/-- The repository's actual registry, transcribed from the table of
contents of src/README.md (Documentation and Code Examples sections):
thirteen topics in learning order, each with the documentation file the
README links and the example files the README lists for that concept. -/
def realRegistry : List TopicEntry :=
  [ ⟨"01", "Introduction to React", "docs/01-introduction.md", [], 1⟩,
    ⟨"02", "JSX Basics", "docs/02-jsx.md",
      ["examples/basics/JSXExample.jsx"], 2⟩,
    ⟨"03", "Components & Props", "docs/03-components-props.md",
      ["examples/basics/PropsExample.jsx"], 3⟩,
    ⟨"04", "React Hooks", "docs/04-hooks.md",
      ["examples/hooks/UseStateExample.jsx"], 4⟩,
    ⟨"05", "State Lifting", "docs/05-state-lifting.md",
      ["examples/basics/StateLiftingExample.jsx"], 5⟩,
    ⟨"06", "Conditional Rendering", "docs/06-conditional-rendering.md",
      ["examples/basics/ConditionalRenderingExample.jsx"], 6⟩,
    ⟨"07", "Event Handling", "docs/07-event-handling.md",
      ["examples/events/EventHandlingExample.jsx",
       "examples/events/EventBubblingExample.jsx"], 7⟩,
    ⟨"08", "useEffect Hook", "docs/08-useEffect.md",
      ["examples/hooks/UseEffectExample.jsx"], 8⟩,
    ⟨"09", "useContext Hook", "docs/09-useContext.md",
      ["examples/hooks/UseContextExample.jsx"], 9⟩,
    ⟨"10", "React Router", "docs/10-react-router.md", [], 10⟩,
    ⟨"11", "React Redux", "docs/11-redux.md", [], 11⟩,
    ⟨"12", "useRef Hook", "docs/12-useRef.md",
      ["examples/hooks/UseRefExample.jsx"], 12⟩,
    ⟨"13", "Libraries & Frameworks", "docs/13-libraries-frameworks.md", [], 13⟩ ]

/-- The resource paths actually present in the repository: its 22 source
files.  Files whose names the source drop does not preserve are listed
under the names their content identifies (the JSX example components name
their own component; the four unnamed Markdown documents are the JSX,
Components & Props, React Hooks and React Redux pages), which is the
assignment most favourable to resolving the README's links.  Notably the
repository contains docs/08-event-bubbling.md, not docs/08-useEffect.md,
and no introduction, react-router, UseRefExample or
EventHandlingExample file. -/
def realResources : List String :=
  [ "README.md", "CONTRIBUTING.md", "QUICKSTART.md",
    "docs/02-jsx.md", "docs/03-components-props.md", "docs/04-hooks.md",
    "docs/05-state-lifting.md", "docs/06-conditional-rendering.md",
    "docs/07-event-handling.md", "docs/08-event-bubbling.md",
    "docs/09-useContext.md", "docs/11-redux.md", "docs/12-useRef.md",
    "docs/13-libraries-frameworks.md",
    "examples/basics/ConditionalRenderingExample.jsx",
    "examples/basics/JSXExample.jsx",
    "examples/basics/PropsExample.jsx",
    "examples/basics/StateLiftingExample.jsx",
    "examples/events/EventBubblingExample.jsx",
    "examples/hooks/UseContextExample.jsx",
    "examples/hooks/UseEffectExample.jsx",
    "examples/hooks/UseStateExample.jsx" ]

/-- C2: the claim that every docRef and every element of exampleRefs of
the repository's registry resolves to an existing resource is FALSE on
the code: validating the README's table of contents against the files
actually present yields five BrokenReference violations — the README
links docs/01-introduction.md, docs/08-useEffect.md (the repository has
docs/08-event-bubbling.md instead), docs/10-react-router.md,
examples/events/EventHandlingExample.jsx and
examples/hooks/UseRefExample.jsx, none of which exist. -/
theorem realRegistry_broken_references :
    validate realRegistry realResources =
      [ Violation.BrokenReference "01" "docs/01-introduction.md",
        Violation.BrokenReference "07" "examples/events/EventHandlingExample.jsx",
        Violation.BrokenReference "08" "docs/08-useEffect.md",
        Violation.BrokenReference "10" "docs/10-react-router.md",
        Violation.BrokenReference "12" "examples/hooks/UseRefExample.jsx" ] := by
  decide

/-- The order relation the registry is sorted by: ascending `order`. -/
def leOrder (a b : TopicEntry) : Prop :=
  a.order ≤ b.order

instance : DecidableRel leOrder :=
  fun a b => Nat.decLe a.order b.order

instance : IsTotal TopicEntry leOrder :=
  ⟨fun a b => Nat.le_total a.order b.order⟩

instance : IsTrans TopicEntry leOrder :=
  ⟨fun _ _ _ hab hbc => Nat.le_trans hab hbc⟩

/-- Modelled from the spec (section 4.1): `listTopics()` produces the
sequence of all entries ordered by `order` ascending; pure and total, it
returns the empty sequence on the empty registry. -/
def listTopics (R : List TopicEntry) : List TopicEntry :=
  List.insertionSort leOrder R

/-- C3: `listTopics()` always succeeds (the empty sequence on the empty
registry), is a pure function of the registry, returns all entries (a
permutation of the registry), and on every valid registry the result is
in strictly increasing `order`. -/
theorem listTopics_spec :
    listTopics [] = []
    ∧ (∀ R : List TopicEntry, (listTopics R).Perm R)
    ∧ (∀ (R : List TopicEntry) (known : List String), Valid R known →
        (listTopics R).Pairwise fun a b => a.order < b.order) := by
  refine ⟨rfl, fun R => List.perm_insertionSort leOrder R, ?_⟩
  intro R known hV
  have hsorted : (listTopics R).Pairwise leOrder :=
    List.sorted_insertionSort leOrder R
  have hperm : (listTopics R).Perm R := List.perm_insertionSort leOrder R
  have h1 : (R.map fun e => e.order).Nodup :=
    (hV.2.1.nodup_iff).mpr (List.nodup_range' 1 R.length)
  have h2 : ((listTopics R).map fun e => e.order).Nodup :=
    ((hperm.map fun e => e.order).nodup_iff).mpr h1
  have hne : (listTopics R).Pairwise fun a b => a.order ≠ b.order :=
    List.pairwise_map.mp h2
  exact (hsorted.and hne).imp fun h => Nat.lt_of_le_of_ne h.1 h.2

/-- Witness data: the spec's concrete scenario (section 8), with the two
entries deliberately registered out of learning order. -/
def wE01 : TopicEntry :=
  ⟨"01", "Introduction", "docs/01-introduction.md", [], 1⟩

def wE02 : TopicEntry :=
  ⟨"02", "JSX", "docs/02-jsx.md", ["examples/basics/JSXExample.jsx"], 2⟩

def wRegistry : List TopicEntry :=
  [wE02, wE01]

def wKnown : List String :=
  ["docs/01-introduction.md", "docs/02-jsx.md", "examples/basics/JSXExample.jsx"]

theorem wValid : Valid wRegistry wKnown := by
  unfold Valid NodupIds OrdersComplete RefsResolve
  refine ⟨by decide, by decide, by decide⟩

/-- Witness for C3: on the concrete two-entry registry, registered out of
order, `listTopics` returns the entries in strictly increasing `order`. -/
theorem listTopics_spec_witness :
    (listTopics wRegistry).Pairwise (fun a b => a.order < b.order)
      ∧ listTopics wRegistry = [wE01, wE02] :=
  ⟨listTopics_spec.2.2 wRegistry wKnown wValid, by decide⟩

/-- Modelled from the spec (section 7): the single typed error of the
lookup operations, identifying the missing id. -/
inductive Err where
  | NotFound (id : String)
deriving DecidableEq, Repr

/-- Modelled from the spec (section 4.1): `getTopic(id)` returns the
matching entry or fails with `NotFound` when no entry has that id. -/
def getTopic (R : List TopicEntry) (id : String) : Except Err TopicEntry :=
  match R.find? (fun e => e.id == id) with
  | some e => Except.ok e
  | none => Except.error (Err.NotFound id)

theorem find?_id_eq_some {R : List TopicEntry} {e : TopicEntry} {id : String}
    (hN : NodupIds R) (he : e ∈ R) (hid : e.id = id) :
    R.find? (fun x => x.id == id) = some e := by
  induction R with
  | nil => cases he
  | cons a rest ih =>
    unfold NodupIds at hN
    rw [List.map_cons, List.nodup_cons] at hN
    by_cases hcase : a.id = id
    · have hae : a = e := by
        rcases List.mem_cons.mp he with rfl | hmem
        · rfl
        · exact absurd (List.mem_map.mpr ⟨e, hmem, hid.trans hcase.symm⟩) hN.1
      rw [List.find?_cons_of_pos rest (by simp [hcase])]
      rw [hae]
    · rw [List.find?_cons_of_neg rest (by simp [hcase])]
      have hmem : e ∈ rest := by
        rcases List.mem_cons.mp he with rfl | h
        · exact absurd hid hcase
        · exact h
      exact ih hN.2 hmem

/-- C5: for every id, `getTopic(id)` returns the unique entry whose id
equals it when such an entry exists, and fails with exactly the single
typed error `NotFound` identifying the missing id when no entry has that
id; it fails in no other case. -/
theorem getTopic_spec (R : List TopicEntry) (known : List String) (id : String)
    (hV : Valid R known) :
    (∀ e, getTopic R id = Except.ok e → e ∈ R ∧ e.id = id)
    ∧ (∀ e ∈ R, e.id = id → getTopic R id = Except.ok e)
    ∧ (getTopic R id = Except.error (Err.NotFound id) ↔ ∀ x ∈ R, x.id ≠ id)
    ∧ (∀ err, getTopic R id = Except.error err → err = Err.NotFound id) := by
  refine ⟨?_, ?_, ?_, ?_⟩
  · intro e h
    unfold getTopic at h
    split at h
    · rename_i a heq
      cases h
      exact ⟨List.mem_of_find?_eq_some heq, by simpa using List.find?_some heq⟩
    · cases h
  · intro e he hid
    unfold getTopic
    rw [find?_id_eq_some hV.1 he hid]
  · unfold getTopic
    constructor
    · intro h
      split at h
      · cases h
      · rename_i heq
        intro x hx
        simpa using List.find?_eq_none.mp heq x hx
    · intro h
      rw [List.find?_eq_none.mpr fun x hx => by simp [h x hx]]
  · intro err h
    unfold getTopic at h
    split at h
    · cases h
    · cases h
      rfl

/-- Witness for C5: on the concrete two-entry registry, looking up the
present id "02" returns its entry and looking up the absent id "99"
fails with NotFound "99". -/
theorem getTopic_spec_witness :
    getTopic wRegistry "02" = Except.ok wE02
      ∧ getTopic wRegistry "99" = Except.error (Err.NotFound "99") :=
  ⟨(getTopic_spec wRegistry wKnown "02" wValid).2.1 wE02 (by decide) rfl,
   (getTopic_spec wRegistry wKnown "99" wValid).2.2.1.mpr (by decide)⟩

/-- The entry with the nearest lower `order` than `e` in `R` (none if
`e.order` is the minimum): the maximal-order entry among those below. -/
def prevEntryOf (R : List TopicEntry) (e : TopicEntry) : Option TopicEntry :=
  (R.filter fun x => decide (x.order < e.order)).argmax fun x => x.order

/-- The entry with the nearest higher `order` than `e` in `R` (none if
`e.order` is the maximum): the minimal-order entry among those above. -/
def nextEntryOf (R : List TopicEntry) (e : TopicEntry) : Option TopicEntry :=
  (R.filter fun x => decide (e.order < x.order)).argmin fun x => x.order

/-- The id of the nearest-lower-order entry, if any. -/
def prevIdOf (R : List TopicEntry) (e : TopicEntry) : Option String :=
  (prevEntryOf R e).map fun x => x.id

/-- The id of the nearest-higher-order entry, if any. -/
def nextIdOf (R : List TopicEntry) (e : TopicEntry) : Option String :=
  (nextEntryOf R e).map fun x => x.id

/-- Modelled from the spec (section 4.1): `getAdjacent(id)` returns the
pair (prevId, nextId) computed from `order`, none at the sequence
boundaries, and fails with `NotFound` when the id is absent. -/
def getAdjacent (R : List TopicEntry) (id : String) :
    Except Err (Option String × Option String) :=
  match R.find? (fun e => e.id == id) with
  | some e => Except.ok (prevIdOf R e, nextIdOf R e)
  | none => Except.error (Err.NotFound id)

/-- C4: on a valid registry, `getAdjacent(e.id)` succeeds for every entry
e, returning as prevId the id of the entry with the nearest lower order
(none iff e.order is the minimum) and as nextId the id of the entry with
the nearest higher order (none iff e.order is the maximum); on an absent
id it fails with NotFound. -/
theorem getAdjacent_spec (R : List TopicEntry) (known : List String)
    (e : TopicEntry) (hV : Valid R known) (he : e ∈ R) :
    getAdjacent R e.id = Except.ok (prevIdOf R e, nextIdOf R e)
    ∧ (prevIdOf R e = none ↔ ∀ x ∈ R, e.order ≤ x.order)
    ∧ (nextIdOf R e = none ↔ ∀ x ∈ R, x.order ≤ e.order)
    ∧ (∀ x, prevEntryOf R e = some x →
        x ∈ R ∧ prevIdOf R e = some x.id ∧ x.order < e.order
          ∧ ∀ y ∈ R, y.order < e.order → y.order ≤ x.order)
    ∧ (∀ x, nextEntryOf R e = some x →
        x ∈ R ∧ nextIdOf R e = some x.id ∧ e.order < x.order
          ∧ ∀ y ∈ R, e.order < y.order → x.order ≤ y.order)
    ∧ (∀ id2 : String, (∀ x ∈ R, x.id ≠ id2) →
        getAdjacent R id2 = Except.error (Err.NotFound id2)) := by
  refine ⟨?_, ?_, ?_, ?_, ?_, ?_⟩
  · unfold getAdjacent
    rw [find?_id_eq_some hV.1 he rfl]
  · unfold prevIdOf prevEntryOf
    rw [Option.map_eq_none', List.argmax_eq_none, List.filter_eq_nil_iff]
    constructor
    · intro h x hx
      have := h x hx
      simpa [Nat.not_lt] using this
    · intro h x hx
      simp [Nat.not_lt, h x hx]
  · unfold nextIdOf nextEntryOf
    rw [Option.map_eq_none', List.argmin_eq_none, List.filter_eq_nil_iff]
    constructor
    · intro h x hx
      have := h x hx
      simpa [Nat.not_lt] using this
    · intro h x hx
      simp [Nat.not_lt, h x hx]
  · intro x hx
    have hxm : x ∈ (R.filter fun y => decide (y.order < e.order)).argmax
        (fun y => y.order) := Option.mem_def.mpr hx
    have hxf := List.argmax_mem hxm
    have hxR := List.mem_filter.mp hxf
    refine ⟨hxR.1, by unfold prevIdOf; rw [hx]; rfl, by simpa using hxR.2, ?_⟩
    intro y hy hylt
    have hyf : y ∈ R.filter fun z => decide (z.order < e.order) :=
      List.mem_filter.mpr ⟨hy, by simpa using hylt⟩
    exact List.le_of_mem_argmax hyf hxm
  · intro x hx
    have hxm : x ∈ (R.filter fun y => decide (e.order < y.order)).argmin
        (fun y => y.order) := Option.mem_def.mpr hx
    have hxf := List.argmin_mem hxm
    have hxR := List.mem_filter.mp hxf
    refine ⟨hxR.1, by unfold nextIdOf; rw [hx]; rfl, by simpa using hxR.2, ?_⟩
    intro y hy hylt
    have hyf : y ∈ R.filter fun z => decide (e.order < z.order) :=
      List.mem_filter.mpr ⟨hy, by simpa using hylt⟩
    exact List.le_of_mem_argmin hyf hxm
  · intro id2 h
    unfold getAdjacent
    rw [List.find?_eq_none.mpr fun x hx => by simp [h x hx]]

/-- Witness for C4: on the concrete two-entry registry, the adjacent ids
of entry "02" are (some "01", none), and looking up the absent id "99"
fails with NotFound "99". -/
theorem getAdjacent_spec_witness :
    (getAdjacent wRegistry wE02.id = Except.ok (prevIdOf wRegistry wE02, nextIdOf wRegistry wE02)
      ∧ prevIdOf wRegistry wE02 = some "01"
      ∧ nextIdOf wRegistry wE02 = none)
    ∧ getAdjacent wRegistry "99" = Except.error (Err.NotFound "99") :=
  ⟨⟨(getAdjacent_spec wRegistry wKnown wE02 wValid (by decide)).1, rfl, rfl⟩,
   (getAdjacent_spec wRegistry wKnown wE02 wValid (by decide)).2.2.2.2.2
     "99" (by decide)⟩

theorem filter_id_eq_nil {rest : List TopicEntry} {s : String}
    (h : s ∉ rest.map fun e => e.id) :
    rest.filter (fun b => s == b.id) = [] := by
  rw [List.filter_eq_nil_iff]
  intro b hb
  simp only [beq_iff_eq]
  intro heq
  exact h (List.mem_map.mpr ⟨b, hb, heq.symm⟩)

theorem orderViolations_not_dup {R : List TopicEntry} :
    ∀ v ∈ orderViolations R, v.isDuplicateId = false := by
  intro v hv
  unfold orderViolations at hv
  rcases List.mem_filterMap.mp hv with ⟨k, _, hk⟩
  split at hk
  · cases hk
  · cases hk
    rfl

theorem entryRefViolations_not_dup {known : List String} {e : TopicEntry} :
    ∀ v ∈ entryRefViolations known e, v.isDuplicateId = false := by
  intro v hv
  unfold entryRefViolations at hv
  rcases List.mem_append.mp hv with h | h
  · split at h
    · cases h
    · rcases List.mem_singleton.mp h with rfl
      rfl
  · rcases List.mem_filterMap.mp h with ⟨r, _, hr⟩
    split at hr
    · cases hr
    · cases hr
      rfl

theorem brokenRefViolations_not_dup {R : List TopicEntry} {known : List String} :
    ∀ v ∈ brokenRefViolations R known, v.isDuplicateId = false := by
  intro v hv
  unfold brokenRefViolations at hv
  rcases List.mem_flatMap.mp hv with ⟨e, _, hve⟩
  exact entryRefViolations_not_dup v hve

theorem dupViolations_snoc {R : List TopicEntry} {e e' : TopicEntry}
    (hN : NodupIds R) (he : e ∈ R) (hid : e'.id = e.id) :
    dupViolations (R ++ [e']) = [Violation.DuplicateId e e'] := by
  induction R with
  | nil => cases he
  | cons a rest ih =>
    unfold NodupIds at hN
    rw [List.map_cons, List.nodup_cons] at hN
    rw [List.cons_append]
    unfold dupViolations
    rw [List.filter_append]
    rcases List.mem_cons.mp he with rfl | hmem
    · rw [filter_id_eq_nil hN.1]
      have hfe : List.filter (fun b => e.id == b.id) [e'] = [e'] := by
        simp [hid]
      rw [hfe]
      have hrest : dupViolations (rest ++ [e']) = [] := by
        rw [dupViolations_eq_nil]
        unfold NodupIds
        rw [List.map_append]
        simp only [List.map_cons, List.map_nil]
        rw [List.nodup_append]
        refine ⟨hN.2, List.nodup_singleton _, ?_⟩
        intro x hx
        simp only [List.mem_singleton]
        intro hxe
        rw [hxe] at hx
        rw [hid] at hx
        exact hN.1 hx
      rw [hrest]
      rfl
    · have hane : a.id ≠ e.id := by
        intro h
        exact hN.1 (h ▸ List.mem_map.mpr ⟨e, hmem, rfl⟩)
      rw [filter_id_eq_nil (by
        intro h
        rcases List.mem_map.mp h with ⟨x, hx, hxe⟩
        exact hN.1 (List.mem_map.mpr ⟨x, hx, hxe⟩))]
      have hfe : List.filter (fun b => a.id == b.id) [e'] = [] := by
        simp [hid, hane]
      rw [hfe]
      have := ih hN.2 hmem
      rw [this]
      rfl

/-- C6: adding to an otherwise-valid registry one entry whose id
duplicates an existing entry's id makes `validate()` report exactly one
DuplicateId violation, and that violation references both offending
entries. -/
theorem validate_duplicate_id (R : List TopicEntry) (known : List String)
    (e e' : TopicEntry) (hV : Valid R known) (he : e ∈ R) (hid : e'.id = e.id) :
    (validate (R ++ [e']) known).filter Violation.isDuplicateId
      = [Violation.DuplicateId e e'] := by
  unfold validate
  rw [List.filter_append, List.filter_append]
  rw [dupViolations_snoc hV.1 he hid]
  have h2 : (orderViolations (R ++ [e'])).filter Violation.isDuplicateId = [] := by
    rw [List.filter_eq_nil_iff]
    intro v hv
    simp [orderViolations_not_dup v hv]
  have h3 : (brokenRefViolations (R ++ [e']) known).filter Violation.isDuplicateId = [] := by
    rw [List.filter_eq_nil_iff]
    intro v hv
    simp [brokenRefViolations_not_dup v hv]
  rw [h2, h3]
  rfl

/-- A duplicate of entry "02": same id, fresh order and title. -/
def wDup : TopicEntry :=
  ⟨"02", "JSX again", "docs/02-jsx.md", [], 3⟩

/-- Witness for C6: appending a second entry with id "02" to the valid
two-entry registry yields exactly the one DuplicateId violation
referencing both entries. -/
theorem validate_duplicate_id_witness :
    (validate (wRegistry ++ [wDup]) wKnown).filter Violation.isDuplicateId
      = [Violation.DuplicateId wE02 wDup] :=
  validate_duplicate_id wRegistry wKnown wE02 wDup wValid (by decide) rfl

theorem flatMap_eq_singleton {α β : Type _} {l : List α} {f : α → List β}
    {a : α} {v : β} (hnd : l.Nodup) (ha : a ∈ l)
    (hother : ∀ x ∈ l, x ≠ a → f x = []) (hfa : f a = [v]) :
    l.flatMap f = [v] := by
  induction l with
  | nil => cases ha
  | cons b rest ih =>
    rw [List.flatMap_cons]
    rcases List.mem_cons.mp ha with rfl | hmem
    · rw [hfa]
      have hrest : rest.flatMap f = [] := by
        rw [List.flatMap_eq_nil_iff]
        intro x hx
        refine hother x (List.mem_cons_of_mem _ hx) ?_
        intro hxa
        rw [hxa] at hx
        exact (List.nodup_cons.mp hnd).1 hx
      rw [hrest]
      rfl
    · have hb : f b = [] := by
        refine hother b (List.mem_cons_self _ _) ?_
        intro hba
        exact (List.nodup_cons.mp hnd).1 (hba ▸ hmem)
      rw [hb]
      have hrest := ih (List.nodup_cons.mp hnd).2 hmem
        (fun x hx hxa => hother x (List.mem_cons_of_mem _ hx) hxa)
      rw [hrest]
      rfl

/-- Two entries that share one documentation file: a valid registry on
which the original statement of the removal claim fails. -/
def cexE1 : TopicEntry :=
  ⟨"01", "Intro A", "docs/a.md", [], 1⟩

def cexE2 : TopicEntry :=
  ⟨"02", "Intro B", "docs/a.md", [], 2⟩

def cexR : List TopicEntry :=
  [cexE1, cexE2]

def cexKnown : List String :=
  ["docs/a.md"]

/-- Counterexample to C7 as stated: on the valid registry in which the
two entries share the documentation file docs/a.md, removing the
resource that the first entry's docRef points to produces two
BrokenReference violations (the second entry is affected too), not
exactly one. -/
theorem validate_remove_docRef_counterexample :
    Valid cexR cexKnown ∧ cexE1 ∈ cexR
      ∧ ((validate cexR (cexKnown.erase cexE1.docRef)).filter
          Violation.isBrokenReference).length = 2 := by
  refine ⟨?_, by decide, by decide⟩
  unfold Valid NodupIds OrdersComplete RefsResolve
  refine ⟨by decide, by decide, by decide⟩

/-- C7 as amended: for every valid registry (the known paths forming a
set, i.e. without duplicates) and every entry e whose docRef path is
referenced nowhere else in the registry (by no other entry's docRef and
by no entry's exampleRefs), removing exactly that resource from the
known paths makes `validate()` report exactly one BrokenReference
violation, attributed to e, and no other violation for any other
entry. -/
theorem validate_remove_docRef (R : List TopicEntry) (known : List String)
    (e : TopicEntry) (hV : Valid R known) (he : e ∈ R) (hkn : known.Nodup)
    (hUniq : ∀ e2 ∈ R, (e2.docRef = e.docRef → e2 = e) ∧ e.docRef ∉ e2.exampleRefs) :
    validate R (known.erase e.docRef) = [Violation.BrokenReference e.id e.docRef] := by
  unfold validate
  rw [dupViolations_eq_nil.mpr hV.1, orderViolations_eq_nil.mpr hV.2.1]
  have hRnd : R.Nodup := List.Nodup.of_map _ hV.1
  have hmain : brokenRefViolations R (known.erase e.docRef)
      = [Violation.BrokenReference e.id e.docRef] := by
    unfold brokenRefViolations
    refine flatMap_eq_singleton hRnd he ?_ ?_
    · intro x hx hxe
      rw [entryRefViolations_eq_nil]
      have hrefs := hV.2.2 x hx
      constructor
      · rw [hkn.mem_erase_iff]
        refine ⟨?_, hrefs.1⟩
        intro hxd
        exact hxe ((hUniq x hx).1 hxd)
      · intro r hr
        rw [hkn.mem_erase_iff]
        refine ⟨?_, hrefs.2 r hr⟩
        intro hrd
        rw [hrd] at hr
        exact (hUniq x hx).2 hr
    · unfold entryRefViolations
      have hnotmem : e.docRef ∉ known.erase e.docRef := by
        rw [hkn.mem_erase_iff]
        intro h
        exact h.1 rfl
      rw [if_neg hnotmem]
      have hex : e.exampleRefs.filterMap (fun r =>
          if r ∈ known.erase e.docRef then none
          else some (Violation.BrokenReference e.id r)) = [] := by
        rw [List.filterMap_eq_nil_iff]
        intro r hr
        have hrk : r ∈ known.erase e.docRef := by
          rw [hkn.mem_erase_iff]
          refine ⟨?_, (hV.2.2 e he).2 r hr⟩
          intro hrd
          rw [hrd] at hr
          exact (hUniq e he).2 hr
        simp [hrk]
      rw [hex]
      rfl
  rw [hmain]
  rfl

/-- Witness for the amended C7: on the valid two-entry registry, erasing
the resource docs/02-jsx.md (referenced only by entry "02"'s docRef)
yields exactly the one BrokenReference violation for entry "02". -/
theorem validate_remove_docRef_witness :
    validate wRegistry (wKnown.erase wE02.docRef)
      = [Violation.BrokenReference "02" "docs/02-jsx.md"] :=
  validate_remove_docRef wRegistry wKnown wE02 wValid (by decide) (by decide)
    (by decide)

theorem mem_dupViolations :
    ∀ (l1 l2 l3 : List TopicEntry) (a b : TopicEntry), a.id = b.id →
      Violation.DuplicateId a b ∈ dupViolations (l1 ++ a :: (l2 ++ b :: l3)) := by
  intro l1
  induction l1 with
  | nil =>
    intro l2 l3 a b hab
    rw [List.nil_append]
    unfold dupViolations
    apply List.mem_append_left
    exact List.mem_map.mpr
      ⟨b, List.mem_filter.mpr ⟨by simp, by simp [hab]⟩, rfl⟩
  | cons c rest ih =>
    intro l2 l3 a b hab
    rw [List.cons_append]
    unfold dupViolations
    exact List.mem_append_right _ (ih l2 l3 a b hab)

theorem mem_orderViolations {R : List TopicEntry} {k : Nat}
    (h1 : 1 ≤ k) (h2 : k ≤ R.length) (h3 : k ∉ R.map fun e => e.order) :
    Violation.OrderGap k ∈ orderViolations R := by
  unfold orderViolations
  rw [List.mem_filterMap]
  refine ⟨k - 1, List.mem_range.mpr (by omega), ?_⟩
  have hk : k - 1 + 1 = k := by omega
  rw [hk]
  simp [h3]

theorem mem_entryRef_doc {known : List String} {e : TopicEntry}
    (h : e.docRef ∉ known) :
    Violation.BrokenReference e.id e.docRef ∈ entryRefViolations known e := by
  unfold entryRefViolations
  rw [if_neg h]
  exact List.mem_append_left _ (by simp)

theorem mem_entryRef_ex {known : List String} {e : TopicEntry} {r : String}
    (hr : r ∈ e.exampleRefs) (h : r ∉ known) :
    Violation.BrokenReference e.id r ∈ entryRefViolations known e := by
  unfold entryRefViolations
  apply List.mem_append_right
  rw [List.mem_filterMap]
  exact ⟨r, hr, by simp [h]⟩

/-- C8: `validate()` is total and pure — in this embedding it is a plain
function on the registry, never failing and mutating nothing — and its
single pass accumulates every violation present rather than stopping at
the first: every duplicate-id pair, every missing order value of 1..N,
and every unresolvable reference of any entry appears in the returned
sequence. -/
theorem validate_complete (R : List TopicEntry) (known : List String) :
    (∀ (l1 l2 l3 : List TopicEntry) (a b : TopicEntry),
        R = l1 ++ a :: (l2 ++ b :: l3) → a.id = b.id →
        Violation.DuplicateId a b ∈ validate R known)
    ∧ (∀ k : Nat, 1 ≤ k → k ≤ R.length → k ∉ R.map (fun e => e.order) →
        Violation.OrderGap k ∈ validate R known)
    ∧ (∀ e ∈ R, (e.docRef ∉ known →
          Violation.BrokenReference e.id e.docRef ∈ validate R known)
        ∧ ∀ r ∈ e.exampleRefs, r ∉ known →
            Violation.BrokenReference e.id r ∈ validate R known) := by
  refine ⟨?_, ?_, ?_⟩
  · intro l1 l2 l3 a b hR hab
    unfold validate
    apply List.mem_append_left
    apply List.mem_append_left
    rw [hR]
    exact mem_dupViolations l1 l2 l3 a b hab
  · intro k h1 h2 h3
    unfold validate
    apply List.mem_append_left
    apply List.mem_append_right
    exact mem_orderViolations h1 h2 h3
  · intro e he
    constructor
    · intro h
      unfold validate
      apply List.mem_append_right
      unfold brokenRefViolations
      exact List.mem_flatMap.mpr ⟨e, he, mem_entryRef_doc h⟩
    · intro r hr h
      unfold validate
      apply List.mem_append_right
      unfold brokenRefViolations
      exact List.mem_flatMap.mpr ⟨e, he, mem_entryRef_ex hr h⟩

/-- An invalid registry exhibiting all three violation kinds at once: a
duplicated id, a gap in the order values, and unresolvable references. -/
def badE1 : TopicEntry :=
  ⟨"01", "A", "docs/a.md", ["examples/x.jsx"], 1⟩

def badE2 : TopicEntry :=
  ⟨"01", "B", "docs/b.md", [], 3⟩

def badR : List TopicEntry :=
  [badE1, badE2]

def badKnown : List String :=
  ["docs/b.md"]

/-- Witness for C8: on the doubly-broken two-entry registry, one run of
`validate` reports the DuplicateId pair, the missing order value 2, and
both unresolvable references, all at once. -/
theorem validate_complete_witness :
    Violation.DuplicateId badE1 badE2 ∈ validate badR badKnown
    ∧ Violation.OrderGap 2 ∈ validate badR badKnown
    ∧ Violation.BrokenReference "01" "docs/a.md" ∈ validate badR badKnown
    ∧ Violation.BrokenReference "01" "examples/x.jsx" ∈ validate badR badKnown :=
  ⟨(validate_complete badR badKnown).1 [] [] [] badE1 badE2 rfl rfl,
   (validate_complete badR badKnown).2.1 2 (by decide) (by decide) (by decide),
   ((validate_complete badR badKnown).2.2 badE1 (by decide)).1 (by decide),
   ((validate_complete badR badKnown).2.2 badE1 (by decide)).2
     "examples/x.jsx" (by decide) (by decide)⟩

/-- The whitespace characters removed by the JavaScript string trim()
used in UseStateExample.jsx - ECMA-262 WhiteSpace plus LineTerminator:
tab, line feed, vertical tab, form feed, carriage return, the line and
paragraph separators U+2028/U+2029, the BOM U+FEFF, and every
Space_Separator code point (space, no-break space, U+1680, the en-quad
to hair-space range U+2000..U+200A, U+202F, U+205F and the ideographic
space U+3000). -/
def isJsWhitespace (c : Char) : Bool :=
  c == '\t' || c == '\n' || c == '\x0b' || c == '\x0c' || c == '\r'
    || c == ' ' || c == '\u00A0' || c == '\u1680'
    || (0x2000 ≤ c.toNat && c.toNat ≤ 0x200A)
    || c == '\u2028' || c == '\u2029' || c == '\u202F' || c == '\u205F'
    || c == '\u3000' || c == '\uFEFF'

/-- JavaScript String.prototype.trim: strip leading and trailing
whitespace. -/
def jsTrim (s : String) : String :=
  ⟨((s.data.dropWhile isJsWhitespace).reverse.dropWhile isJsWhitespace).reverse⟩

theorem jsTrim_eq_empty_iff {s : String} :
    jsTrim s = "" ↔ ∀ c ∈ s.data, isJsWhitespace c = true := by
  unfold jsTrim
  constructor
  · intro h c hc
    have hdata : ((s.data.dropWhile isJsWhitespace).reverse.dropWhile
        isJsWhitespace).reverse = [] := congrArg String.data h
    rw [List.reverse_eq_nil_iff, List.dropWhile_eq_nil_iff] at hdata
    have hdrop : ∀ x ∈ s.data.dropWhile isJsWhitespace, isJsWhitespace x = true := by
      intro x hx
      exact hdata x (List.mem_reverse.mpr hx)
    rcases List.mem_append.mp (by
        rw [List.takeWhile_append_dropWhile isJsWhitespace s.data]
        exact hc) with h1 | h1
    · exact List.mem_takeWhile_imp h1
    · exact hdrop c h1
  · intro h
    have hdrop : s.data.dropWhile isJsWhitespace = [] := by
      rw [List.dropWhile_eq_nil_iff]
      exact h
    rw [hdrop]
    rfl

/-- Embedded from the UseStateExample component source: the two useState
hooks that the addItem handler closes over — the items array and the
newItem input text.  The component's other hooks (count, name, isVisible,
user) are independent state that addItem neither reads nor writes. -/
structure UseStateItems where
  items : List String
  newItem : String
deriving DecidableEq, Repr

/-- Embedded from the UseStateExample component source: addItem appends
the (untrimmed) newItem to the items array and clears newItem when
newItem.trim() is truthy, i.e. nonempty after trimming; otherwise it
does nothing. -/
def addItem (s : UseStateItems) : UseStateItems :=
  if jsTrim s.newItem ≠ "" then
    { items := s.items ++ [s.newItem], newItem := "" }
  else s

/-- C9: addItem appends the current newItem to the end of the items list
and resets newItem to the empty string exactly when newItem contains a
non-whitespace character; when newItem is empty or all whitespace, the
state is left unchanged. -/
theorem addItem_spec (s : UseStateItems) :
    ((∃ c ∈ s.newItem.data, isJsWhitespace c = false) →
        addItem s = { items := s.items ++ [s.newItem], newItem := "" })
    ∧ ((∀ c ∈ s.newItem.data, isJsWhitespace c = true) → addItem s = s) := by
  constructor
  · rintro ⟨c, hc, hw⟩
    have hne : jsTrim s.newItem ≠ "" := by
      intro h
      have hall := jsTrim_eq_empty_iff.mp h c hc
      rw [hall] at hw
      cases hw
    unfold addItem
    rw [if_pos hne]
  · intro h
    have heq : jsTrim s.newItem = "" := jsTrim_eq_empty_iff.mpr h
    unfold addItem
    rw [if_neg fun hne => hne heq]

/-- Witness for C9: adding "hello" appends it and clears the input;
a blank input of plain spaces, and one of ideographic space plus the
line separator, both change nothing. -/
theorem addItem_spec_witness :
    addItem ⟨[], "hello"⟩ = ⟨["hello"], ""⟩
      ∧ addItem ⟨["kept"], "   "⟩ = ⟨["kept"], "   "⟩
      ∧ addItem ⟨["kept"], "\u3000\u2028"⟩ = ⟨["kept"], "\u3000\u2028"⟩ :=
  ⟨(addItem_spec ⟨[], "hello"⟩).1 ⟨'h', by decide, by decide⟩,
   (addItem_spec ⟨["kept"], "   "⟩).2 (by decide),
   (addItem_spec ⟨["kept"], "\u3000\u2028"⟩).2 (by decide)⟩

/-- Embedded from the StateLiftingExample component source: the single
lifted text state owned by the parent component. -/
structure SLState where
  text : String
deriving DecidableEq, Repr

/-- Embedded from the source: useState('') — the initial lifted state. -/
def initialSLState : SLState :=
  ⟨""⟩

/-- Embedded from the source: handleInputChange replaces the lifted text
with the typed event value, ignoring the previous state. -/
def handleInputChange (eventValue : String) (_s : SLState) : SLState :=
  ⟨eventValue⟩

/-- Embedded from the source: the MyInput child displays exactly its
valueToShow prop and manages no state of its own. -/
def MyInput (valueToShow : String) : String :=
  valueToShow

/-- Embedded from the source: the parent renders its two MyInput children
both with valueToShow set to the one lifted text state. -/
def renderInputs (s : SLState) : List String :=
  [MyInput s.text, MyInput s.text]

/-- A sequence of onType events applied from the initial state: each
event fires handleInputChange with the typed value. -/
def applyTyping (events : List String) : SLState :=
  events.foldl (fun st v => handleInputChange v st) initialSLState

/-- C10: both MyInput children are always rendered with the same
valueToShow — the parent's single lifted text state — so after any
sequence of onType events the two inputs display equal values. -/
theorem stateLifting_inputs_equal (events : List String) :
    renderInputs (applyTyping events)
        = [(applyTyping events).text, (applyTyping events).text]
      ∧ (renderInputs (applyTyping events)).get? 0
          = (renderInputs (applyTyping events)).get? 1 :=
  ⟨rfl, rfl⟩
